import Mathlib

/-!
Verification of the image-transformation core of the image-scale-hub
repository (src/utils/image_processor.py and src/utils/security.py).

The Python code calls the Pillow (PIL) library for pixel work.  Pillow is
external to the repository, so its operations are modelled as an abstract
oracle (`PILOps`): a bundle of functions for decoding, resizing, blurring,
pasting, flattening and encoding, together with the dimension facts that
Pillow guarantees (a resize has the requested size, a filter and a paste
preserve dimensions, a lossless save/open round trip preserves dimensions).
Everything written in the repository itself (branching, arithmetic, the
quality binary search, the pack loop, the validators) is translated
directly from the source.

Numeric conventions of the translation:
* Python byte strings become `List Nat` (`Bytes`).
* Python float arithmetic on dimension ratios is modelled exactly with `ℚ`;
  `int(x)` on the non-negative values appearing here is `Nat.floor`.
* Python `//` on possibly negative ints (paste offsets) is `Int.fdiv`
  (floor division), matching Python semantics.
* Python truthiness of an optional integer argument (`if target_size_kb:`)
  is `truthy`: false for `None` and for `0`.
-/

namespace ImageScaleHub

/-- A byte buffer (Python `bytes`), one `Nat` per byte. -/
abbrev Bytes := List Nat

/-- A decoded PIL image at the fidelity the claims need: dimensions and
color mode.  Pixel content is abstracted into the `PILOps` oracle. -/
structure Img where
  width : Nat
  height : Nat
  mode : String
deriving DecidableEq

/-- The Pillow operations used by image_processor.py, together with the
dimension guarantees Pillow provides for them. -/
structure PILOps where
  /-- Models `Image.open(io.BytesIO(b))`; `none` models the decode exception. -/
  decode : Bytes → Option Img
  /-- Models `Image.new('RGB', (w, h), (255, 255, 255))`. -/
  newRGB : Nat → Nat → Img
  /-- Models `img.resize((w, h), Image.Resampling.LANCZOS)`. -/
  resize : Img → Nat → Nat → Img
  /-- Models `img.filter(ImageFilter.GaussianBlur(radius))`. -/
  gaussianBlur : Img → Nat → Img
  /-- Models `canvas.paste(layer, (x, y))`, as a function returning the updated canvas. -/
  paste : Img → Img → Int → Int → Img
  /-- The RGBA/LA/P-to-RGB flattening onto a white background performed by
  `compress_image` before JPEG encoding. -/
  flatten : Img → Img
  /-- Models `img.save(out, format='PNG', optimize=True)`. -/
  savePNG : Img → Bytes
  /-- Models `img.save(out, format='JPEG', quality=q, optimize=True)`. -/
  saveJPEG : Img → Nat → Bytes
  new_width : ∀ w h, (newRGB w h).width = w
  new_height : ∀ w h, (newRGB w h).height = h
  resize_width : ∀ i w h, (resize i w h).width = w
  resize_height : ∀ i w h, (resize i w h).height = h
  blur_width : ∀ i r, (gaussianBlur i r).width = i.width
  blur_height : ∀ i r, (gaussianBlur i r).height = i.height
  paste_width : ∀ c l x y, (paste c l x y).width = c.width
  paste_height : ∀ c l x y, (paste c l x y).height = c.height
  flatten_width : ∀ i, (flatten i).width = i.width
  flatten_height : ∀ i, (flatten i).height = i.height
  decode_savePNG : ∀ i, ∃ j, decode (savePNG i) = some j ∧
    j.width = i.width ∧ j.height = i.height

/-- Python truthiness of an optional integer: `None` and `0` are falsy. -/
def truthy : Option Nat → Bool
  | none => false
  | some n => n != 0

/-- The tuple `(compressed_data, compressed_size, quality)` returned by
`compress_image`. -/
structure CompressResult where
  data : Bytes
  size : Nat
  quality : Nat
deriving DecidableEq

/-- The `while min_quality <= max_quality` binary-search loop of
`compress_image` (image_processor.py lines 106-118).  `enc q` is the JPEG
encoding of the (already flattened) image at quality `q`.

The Python loop condition is only `min_quality <= max_quality`; the extra
`1 ≤ minQ` conjunct is an invariant of the Python loop (`min_quality`
starts at 1 and never decreases), included here to make the recursion
well-founded.  It does not change the behaviour on any state reachable
from the entry state `(1, 100, None)`. -/
def compressLoop (enc : Nat → Bytes) (target : Nat) (minQ maxQ : Nat)
    (best : Option CompressResult) : Option CompressResult :=
  if h : 1 ≤ minQ ∧ minQ ≤ maxQ then
    if (enc ((minQ + maxQ) / 2)).length ≤ target then
      compressLoop enc target ((minQ + maxQ) / 2 + 1) maxQ
        (some ⟨enc ((minQ + maxQ) / 2), (enc ((minQ + maxQ) / 2)).length,
               (minQ + maxQ) / 2⟩)
    else
      compressLoop enc target minQ ((minQ + maxQ) / 2 - 1) best
  else best
termination_by maxQ + 1 - minQ
decreasing_by
  · omega
  · omega

/-- The modes `('RGBA', 'LA', 'P')` that `compress_image` flattens before
JPEG encoding. -/
def alphaModes : List String := ["RGBA", "LA", "P"]

/-- The mode-conversion prologue of `compress_image` (lines 92-97): images
in an alpha/palette mode are composited onto a white RGB background. -/
def jpegSource (ops : PILOps) (img : Img) : Img :=
  if img.mode ∈ alphaModes then ops.flatten img else img

/-- Translation of `compress_image(image_data, target_size_kb, quality)`
(image_processor.py lines 76-146). -/
def compress_image (ops : PILOps) (image_data : Bytes)
    (target_size_kb quality : Option Nat) : Except String CompressResult :=
  match ops.decode image_data with
  | none => Except.error "Error compressing image: cannot identify image file"
  | some img0 =>
    let img := jpegSource ops img0
    if truthy target_size_kb then
      let target_size_bytes := target_size_kb.getD 0 * 1024
      match compressLoop (fun q => ops.saveJPEG img q) target_size_bytes 1 100 none with
      | some best => Except.ok best
      | none =>
        Except.ok ⟨ops.saveJPEG img 1, (ops.saveJPEG img 1).length, 1⟩
    else if truthy quality then
      Except.ok ⟨ops.saveJPEG img (quality.getD 0),
                 (ops.saveJPEG img (quality.getD 0)).length, quality.getD 0⟩
    else
      Except.ok ⟨ops.saveJPEG img 85, (ops.saveJPEG img 85).length, 85⟩

/-- Translation of `add_blur_borders(image_data, target_width, target_height,
blur_amount)`
(image_processor.py lines 6-74).  Ratio arithmetic, done with Python floats
in the source, is modelled exactly over `ℚ`; `int(...)` of the non-negative
values involved is `Nat.floor`.  The explicit division-by-zero errors mark
exactly the inputs on which the Python code raises `ZeroDivisionError`
(caught and re-raised by the surrounding `except` block). -/
def add_blur_borders (ops : PILOps) (image_data : Bytes)
    (target_width target_height blur_amount : Nat) : Except String Bytes :=
  match ops.decode image_data with
  | none => Except.error "Error processing blur: cannot identify image file"
  | some img =>
    if img.height = 0 ∨ target_height = 0 then
      Except.error "Error processing blur: division by zero"
    else
      let imgAspect : ℚ := (img.width : ℚ) / (img.height : ℚ)
      let canvasAspect : ℚ := (target_width : ℚ) / (target_height : ℚ)
      let canvas := ops.newRGB target_width target_height
      let sharp : Nat × Nat :=
        if canvasAspect < imgAspect then
          (target_width, ⌊(target_width : ℚ) / imgAspect⌋₊)
        else
          (⌊(target_height : ℚ) * imgAspect⌋₊, target_height)
      let img_resized := ops.resize img sharp.1 sharp.2
      -- With `img.width = 0` the cover branch `img_ratio > canvas_ratio`
      -- is never taken, and the Python expression
      -- `int(target_width * (img.height / img.width))` raises.
      if img.width = 0 then
        Except.error "Error processing blur: division by zero"
      else
        let bg : Nat × Nat :=
          if canvasAspect < imgAspect then
            (⌊(target_height : ℚ) * imgAspect⌋₊, target_height)
          else
            (target_width,
             ⌊(target_width : ℚ) * ((img.height : ℚ) / (img.width : ℚ))⌋₊)
        let img_bg := ops.resize img bg.1 bg.2
        let img_blurred := ops.gaussianBlur img_bg blur_amount
        let bg_x : Int := ((target_width : Int) - (bg.1 : Int)).fdiv 2
        let bg_y : Int := ((target_height : Int) - (bg.2 : Int)).fdiv 2
        let canvas1 := ops.paste canvas img_blurred bg_x bg_y
        let img_x : Int := ((target_width : Int) - (sharp.1 : Int)).fdiv 2
        let img_y : Int := ((target_height : Int) - (sharp.2 : Int)).fdiv 2
        let canvas2 := ops.paste canvas1 img_resized img_x img_y
        Except.ok (ops.savePNG canvas2)

/-- Translation of `resize_image(image_data, width, height, percentage,
max_width, max_height)` (image_processor.py lines 148-218).  The `if percentage: /
elif width and height: / elif width: / elif height: / elif max_width or
max_height: / else:` cascade uses Python truthiness, so a parameter equal
to `0` behaves like an absent one. -/
def resize_image (ops : PILOps) (image_data : Bytes)
    (width height percentage max_width max_height : Option Nat) :
    Except String (Bytes × Nat × Nat) :=
  match ops.decode image_data with
  | none => Except.error "Error resizing image: cannot identify image file"
  | some img =>
    let ow := img.width
    let oh := img.height
    let dims : Except String (Nat × Nat) :=
      if truthy percentage then
        let scale : ℚ := (percentage.getD 0 : ℚ) / 100
        Except.ok (⌊(ow : ℚ) * scale⌋₊, ⌊(oh : ℚ) * scale⌋₊)
      else if truthy width && truthy height then
        Except.ok (width.getD 0, height.getD 0)
      else if truthy width then
        if ow = 0 then Except.error "Error resizing image: division by zero"
        else Except.ok (width.getD 0,
          ⌊(oh : ℚ) * ((width.getD 0 : ℚ) / (ow : ℚ))⌋₊)
      else if truthy height then
        if oh = 0 then Except.error "Error resizing image: division by zero"
        else Except.ok (⌊(ow : ℚ) * ((height.getD 0 : ℚ) / (oh : ℚ))⌋₊,
          height.getD 0)
      else if truthy max_width || truthy max_height then
        let scaleE : Except String ℚ :=
          if truthy max_width && truthy max_height then
            if ow = 0 ∨ oh = 0 then
              Except.error "Error resizing image: division by zero"
            else Except.ok (min ((max_width.getD 0 : ℚ) / (ow : ℚ))
                                ((max_height.getD 0 : ℚ) / (oh : ℚ)))
          else if truthy max_width then
            if ow = 0 then Except.error "Error resizing image: division by zero"
            else Except.ok ((max_width.getD 0 : ℚ) / (ow : ℚ))
          else
            if oh = 0 then Except.error "Error resizing image: division by zero"
            else Except.ok ((max_height.getD 0 : ℚ) / (oh : ℚ))
        scaleE.bind fun scale =>
          if 1 ≤ scale then Except.ok (ow, oh)
          else Except.ok (⌊(ow : ℚ) * scale⌋₊, ⌊(oh : ℚ) * scale⌋₊)
      else Except.error "Error resizing image: No resize parameters specified"
    dims.bind fun wh =>
      Except.ok (ops.savePNG (ops.resize img wh.1 wh.2), wh.1, wh.2)

/-- The distinct raise sites of `validate_image_file`
(image_processor.py lines 328-371), as error kinds. -/
inductive ImgVErr where
  | SizeLimitExceeded
  | UnsupportedExtension
  | CorruptImage
  | InvalidDimensions
  | DimensionsTooLarge
deriving DecidableEq

/-- Characters after the last `.` of a name, or `none` when the name
contains no dot. -/
def charsAfterLastDot : List Char → Option (List Char)
  | [] => none
  | c :: cs =>
    match charsAfterLastDot cs with
    | some r => some r
    | none => if c = '.' then some cs else none

/-- Python `str.lower()` on the ASCII names used here, working directly on
the character list. -/
def lowerStr (s : String) : String := String.mk (s.data.map Char.toLower)

/-- Translation of `os.path.splitext(filename)[1].lower().lstrip('.')`: the lower-cased
part after the last dot, or the empty string when there is no dot.  This
matches `splitext` on every filename whose base name does not itself start
with a dot (the only case where `splitext` differs from a split at the
last dot). -/
def splitextExt (filename : String) : String :=
  match charsAfterLastDot filename.data with
  | some r => String.mk (r.map Char.toLower)
  | none => ""

/-- Translation of `filename.lower().split('.')[-1]` from `validate_file_upload`
(security.py line 76): note that unlike `splitextExt`, a dotless filename
yields the whole (lower-cased) name. -/
def secExt (filename : String) : String :=
  match charsAfterLastDot (lowerStr filename).data with
  | some r => String.mk r
  | none => lowerStr filename

/-- The shared extension test: `if allowed_extensions:` is falsy for both
`None` and the empty list, in which case the check is skipped; otherwise
the extracted extension must be in the lower-cased allow-list. -/
def extensionOk (ext : String) (allowed_extensions : Option (List String)) : Bool :=
  match allowed_extensions with
  | none => true
  | some exts => exts.isEmpty || (ext ∈ exts.map (fun e => lowerStr e))

/-- Translation of `validate_image_file(file_data, filename, max_size,
allowed_extensions)`
(image_processor.py lines 328-371).  `img.verify()` plus the reopen are
modelled by the single decode oracle call. -/
def validate_image_file (ops : PILOps) (file_data : Bytes) (filename : String)
    (max_size : Nat) (allowed_extensions : Option (List String)) :
    Except ImgVErr Bool :=
  if max_size < file_data.length then Except.error ImgVErr.SizeLimitExceeded
  else if !extensionOk (splitextExt filename) allowed_extensions then
    Except.error ImgVErr.UnsupportedExtension
  else
    match ops.decode file_data with
    | none => Except.error ImgVErr.CorruptImage
    | some img =>
      if img.width < 1 ∨ img.height < 1 then Except.error ImgVErr.InvalidDimensions
      else if 4000 < img.width ∨ 4000 < img.height then
        Except.error ImgVErr.DimensionsTooLarge
      else Except.ok true

/-- The raise sites of `validate_file_upload` (security.py lines 54-114). -/
inductive SecVErr where
  | FileTooLarge
  | FileTypeNotAllowed
  | InvalidFileFormat
  | DangerousContent
deriving DecidableEq

/-- The `magic_bytes` signature table of security.py lines 81-87:
JPEG `FF D8 FF`, PNG `89 50 4E 47 0D 0A 1A 0A`, `GIF87a`, `GIF89a`,
`RIFF`. -/
def magicSignatures : List Bytes :=
  [[0xFF, 0xD8, 0xFF],
   [0x89, 0x50, 0x4E, 0x47, 0x0D, 0x0A, 0x1A, 0x0A],
   [0x47, 0x49, 0x46, 0x38, 0x37, 0x61],
   [0x47, 0x49, 0x46, 0x38, 0x39, 0x61],
   [0x52, 0x49, 0x46, 0x46]]

/-- Translation of `any(file_data.startswith(magic) for magic in magic_bytes)`. -/
def hasMagic (data : Bytes) : Bool :=
  magicSignatures.any (fun m => m.isPrefixOf data)

/-- ASCII lower-casing of one byte (`bytes.lower()` lowers only A-Z). -/
def lowerByte (b : Nat) : Nat := if 65 ≤ b ∧ b ≤ 90 then b + 32 else b

/-- The `dangerous_patterns` list of security.py lines 99-108, as ASCII
byte strings. -/
def dangerousPatterns : List Bytes :=
  [[60, 115, 99, 114, 105, 112, 116],
   [106, 97, 118, 97, 115, 99, 114, 105, 112, 116, 58],
   [118, 98, 115, 99, 114, 105, 112, 116, 58],
   [100, 97, 116, 97, 58, 116, 101, 120, 116, 47, 104, 116, 109, 108],
   [60, 63, 112, 104, 112],
   [60, 37],
   [101, 118, 97, 108, 40],
   [101, 120, 101, 99, 40]]

/-- Membership test `pattern in data` for byte strings. -/
def bytesContain (pattern data : Bytes) : Bool :=
  data.tails.any (fun t => pattern.isPrefixOf t)

/-- Translation of `validate_file_upload(file_data, filename, max_size,
allowed_extensions)`
(security.py lines 54-114): size, extension allow-list, magic-byte
signature, then embedded-script patterns against the lower-cased buffer. -/
def validate_file_upload (file_data : Bytes) (filename : String)
    (max_size : Nat) (allowed_extensions : Option (List String)) :
    Except SecVErr Bool :=
  if max_size < file_data.length then Except.error SecVErr.FileTooLarge
  else if !extensionOk (secExt filename) allowed_extensions then
    Except.error SecVErr.FileTypeNotAllowed
  else if !hasMagic file_data then Except.error SecVErr.InvalidFileFormat
  else if dangerousPatterns.any
      (fun p => bytesContain p (file_data.map lowerByte)) then
    Except.error SecVErr.DangerousContent
  else Except.ok true

/-- One entry of `pack_config['outputs']`, holding the values produced by
the `output.get(...)` calls of `process_pack` (so `name` carries the
default `'output'`, `method` the default `'blur'`, `compress` the default
`False`, while `width`, `height` and `compress_target` may be absent). -/
structure OutputSpec where
  name : String
  width : Option Nat
  height : Option Nat
  method : String
  compress : Bool
  compress_target : Option Nat
deriving DecidableEq

/-- One element of the `results` list built by `process_pack`. -/
structure PackResult where
  data : Bytes
  filename : String
  width : Option Nat
  height : Option Nat
  size : Nat
  name : String
deriving DecidableEq

/-- The compression stage of the `process_pack` loop (image_processor.py
lines 252-261): when `compress` is set, either a target-size compression
at `compress_target // 1024` kilobytes or the default quality-85
compression. -/
def applyCompress (ops : PILOps) (o : OutputSpec) (pd : Bytes) :
    Except String Bytes :=
  if o.compress then
    if truthy o.compress_target then
      (compress_image ops pd (some (o.compress_target.getD 0 / 1024)) none).map
        (fun r => r.data)
    else
      (compress_image ops pd none (some 85)).map (fun r => r.data)
  else Except.ok pd

/-- The tail of one `process_pack` iteration: optional compression, then
the result record with its timestamped filename (lines 263-274).  `now` is
the `datetime.now().strftime("%Y%m%d_%H%M%S")` value, passed explicitly. -/
def finishOutput (ops : PILOps) (now : String) (o : OutputSpec) (pd : Bytes) :
    Except String PackResult :=
  (applyCompress ops o pd).map fun pd2 =>
    { data := pd2
      filename := o.name ++ "_" ++ now ++ ".png"
      width := o.width
      height := o.height
      size := pd2.length
      name := o.name }

/-- Translation of `process_pack(image_data, pack_config)` (image_processor.py lines
220-279) over the `outputs` list.  A spec with `method = 'blur'` whose
width or height is `None` makes `Image.new` raise a `TypeError`, which the
surrounding `except` turns into a pack error; an unrecognized method hits
the `continue`. -/
def process_pack (ops : PILOps) (image_data : Bytes) (now : String) :
    List OutputSpec → Except String (List PackResult)
  | [] => Except.ok []
  | o :: rest =>
    if o.method = "blur" then
      (match o.width, o.height with
       | some w, some h => add_blur_borders ops image_data w h 30
       | _, _ => Except.error "Error processing pack: unsupported operand type").bind
        fun pd => (finishOutput ops now o pd).bind
        fun r => (process_pack ops image_data now rest).map
        fun rs => r :: rs
    else if o.method = "resize" then
      (resize_image ops image_data o.width o.height none none none).bind
        fun t => (finishOutput ops now o t.1).bind
        fun r => (process_pack ops image_data now rest).map
        fun rs => r :: rs
    else process_pack ops image_data now rest

/-- The timestamp-independent part of a pack result: everything except the
filename. -/
def resultCore (r : PackResult) : Bytes × Option Nat × Option Nat × Nat × String :=
  (r.data, r.width, r.height, r.size, r.name)

/-- The soundness invariant of the binary-search best-so-far record:
it is the encoding at its own quality, its stored size is that encoding's
length and meets the target, and its quality lies in `[1, 100]`. -/
def GoodResult (enc : Nat → Bytes) (target : Nat) (r : CompressResult) : Prop :=
  r.data = enc r.quality ∧ r.size = (enc r.quality).length ∧
  r.size ≤ target ∧ 1 ≤ r.quality ∧ r.quality ≤ 100

/-- A concrete instantiation of the Pillow oracle, used to evaluate the
theorems on explicit inputs: a buffer decodes to an image whose dimensions
are its first two bytes, PNG encoding stores the dimensions, and the JPEG
encoding at quality `q` has `q + 2` bytes (so encoded size is strictly
monotone in quality). -/
def testOps : PILOps where
  decode := fun b =>
    match b with
    | w :: h :: _ => some ⟨w, h, "RGB"⟩
    | _ => none
  newRGB := fun w h => ⟨w, h, "RGB"⟩
  resize := fun i w h => ⟨w, h, i.mode⟩
  gaussianBlur := fun i _ => i
  paste := fun c _ _ _ => c
  flatten := fun i => ⟨i.width, i.height, "RGB"⟩
  savePNG := fun i => [i.width, i.height]
  saveJPEG := fun _ q => List.replicate (q + 2) 1
  new_width := fun _ _ => rfl
  new_height := fun _ _ => rfl
  resize_width := fun _ _ _ => rfl
  resize_height := fun _ _ _ => rfl
  blur_width := fun _ _ => rfl
  blur_height := fun _ _ => rfl
  paste_width := fun _ _ _ _ => rfl
  paste_height := fun _ _ _ _ => rfl
  flatten_width := fun _ => rfl
  flatten_height := fun _ => rfl
  decode_savePNG := fun i => ⟨⟨i.width, i.height, "RGB"⟩, rfl, rfl, rfl⟩

/-! ### Lemmas about the quality binary search -/

/-- Once a best-so-far has been recorded, the search can no longer return
`None`. -/
theorem compressLoop_some_ne_none_aux (enc : Nat → Bytes) (target : Nat) :
    ∀ (n minQ maxQ : Nat) (r : CompressResult), maxQ + 1 - minQ ≤ n →
      compressLoop enc target minQ maxQ (some r) ≠ none := by
  intro n
  induction n with
  | zero =>
    intro minQ maxQ r h
    rw [compressLoop, dif_neg (by omega)]
    simp
  | succ n ih =>
    intro minQ maxQ r h
    rw [compressLoop]
    by_cases hc : 1 ≤ minQ ∧ minQ ≤ maxQ
    · rw [dif_pos hc]
      by_cases hs : (enc ((minQ + maxQ) / 2)).length ≤ target
      · rw [if_pos hs]
        exact ih _ _ _ (by omega)
      · rw [if_neg hs]
        exact ih _ _ _ (by omega)
    · rw [dif_neg hc]
      simp

/-- Specialization of `compressLoop_some_ne_none_aux` at the canonical fuel. -/
theorem compressLoop_some_ne_none (enc : Nat → Bytes) (target : Nat)
    (minQ maxQ : Nat) (r : CompressResult) :
    compressLoop enc target minQ maxQ (some r) ≠ none :=
  compressLoop_some_ne_none_aux enc target (maxQ + 1 - minQ) minQ maxQ r le_rfl

/-- Soundness of the search: any returned record is the encoding at its own
quality, meets the target, and has quality in `[1, 100]`. -/
theorem compressLoop_sound_aux (enc : Nat → Bytes) (target : Nat) :
    ∀ (n minQ maxQ : Nat) (best : Option CompressResult), maxQ + 1 - minQ ≤ n →
      maxQ ≤ 100 →
      (∀ r, best = some r → GoodResult enc target r) →
      ∀ r, compressLoop enc target minQ maxQ best = some r →
        GoodResult enc target r := by
  intro n
  induction n with
  | zero =>
    intro minQ maxQ best h hmax hbest r hres
    rw [compressLoop, dif_neg (by omega)] at hres
    exact hbest r hres
  | succ n ih =>
    intro minQ maxQ best h hmax hbest r hres
    rw [compressLoop] at hres
    by_cases hc : 1 ≤ minQ ∧ minQ ≤ maxQ
    · rw [dif_pos hc] at hres
      by_cases hs : (enc ((minQ + maxQ) / 2)).length ≤ target
      · rw [if_pos hs] at hres
        refine ih ((minQ + maxQ) / 2 + 1) maxQ _ (by omega) hmax ?_ r hres
        intro r' hr'
        cases hr'
        refine ⟨rfl, rfl, hs, ?_, ?_⟩
        · show 1 ≤ (minQ + maxQ) / 2
          omega
        · show (minQ + maxQ) / 2 ≤ 100
          omega
      · rw [if_neg hs] at hres
        exact ih minQ ((minQ + maxQ) / 2 - 1) best (by omega) (by omega) hbest r hres
    · rw [dif_neg hc] at hres
      exact hbest r hres

/-- If the search started at `min_quality = 1` returns `None`, then the
quality-1 encoding itself was tried and found above the target. -/
theorem compressLoop_none_q1 (enc : Nat → Bytes) (target : Nat) :
    ∀ maxQ : Nat, 1 ≤ maxQ →
      compressLoop enc target 1 maxQ none = none →
      target < (enc 1).length := by
  intro maxQ
  induction maxQ using Nat.strong_induction_on with
  | _ maxQ ih =>
    intro h1 hres
    rw [compressLoop, dif_pos ⟨le_rfl, h1⟩] at hres
    by_cases hs : (enc ((1 + maxQ) / 2)).length ≤ target
    · rw [if_pos hs] at hres
      exact absurd hres (compressLoop_some_ne_none enc target _ _ _)
    · rw [if_neg hs] at hres
      by_cases hm : 1 ≤ (1 + maxQ) / 2 - 1
      · exact ih ((1 + maxQ) / 2 - 1) (by omega) hm hres
      · have hmid : (1 + maxQ) / 2 = 1 := by omega
        rw [hmid] at hs
        omega

/-- The main loop invariant under a monotone encoder: a returned record is
sound and of maximal quality among `[1, 100]` meeting the target, and a
`None` return means no quality in `[1, 100]` meets the target. -/
theorem compressLoop_maximal_aux (enc : Nat → Bytes) (target : Nat)
    (hmono : ∀ a b : Nat, a ≤ b → (enc a).length ≤ (enc b).length) :
    ∀ (n minQ maxQ : Nat) (best : Option CompressResult), maxQ + 1 - minQ ≤ n →
      1 ≤ minQ → maxQ ≤ 100 →
      (best = none → minQ = 1) →
      (∀ r, best = some r → GoodResult enc target r ∧ r.quality + 1 = minQ) →
      (∀ q, maxQ < q → q ≤ 100 → target < (enc q).length) →
      (∀ r, compressLoop enc target minQ maxQ best = some r →
         GoodResult enc target r ∧
         ∀ q, r.quality < q → q ≤ 100 → target < (enc q).length) ∧
      (compressLoop enc target minQ maxQ best = none →
         ∀ q, 1 ≤ q → q ≤ 100 → target < (enc q).length) := by
  intro n
  induction n with
  | zero =>
    intro minQ maxQ best h h1 hmax hnone hbest hfail
    rw [compressLoop, dif_neg (by omega)]
    constructor
    · intro r hr
      obtain ⟨hg, hq⟩ := hbest r hr
      exact ⟨hg, fun q hq1 hq2 => hfail q (by omega) hq2⟩
    · intro hn
      have hm1 : minQ = 1 := hnone hn
      intro q hq1 hq2
      exact hfail q (by omega) hq2
  | succ n ih =>
    intro minQ maxQ best h h1 hmax hnone hbest hfail
    by_cases hc : 1 ≤ minQ ∧ minQ ≤ maxQ
    · rw [compressLoop, dif_pos hc]
      by_cases hs : (enc ((minQ + maxQ) / 2)).length ≤ target
      · rw [if_pos hs]
        refine ih ((minQ + maxQ) / 2 + 1) maxQ _ (by omega) (by omega) hmax
          (by simp) ?_ hfail
        intro r hr
        cases hr
        refine ⟨⟨rfl, rfl, hs, ?_, ?_⟩, rfl⟩
        · show 1 ≤ (minQ + maxQ) / 2
          omega
        · show (minQ + maxQ) / 2 ≤ 100
          omega
      · rw [if_neg hs]
        refine ih minQ ((minQ + maxQ) / 2 - 1) best (by omega) h1 (by omega)
          hnone hbest ?_
        intro q hq1 hq2
        have hq3 : (minQ + maxQ) / 2 ≤ q := by omega
        have := hmono _ _ hq3
        omega
    · rw [compressLoop, dif_neg hc]
      constructor
      · intro r hr
        obtain ⟨hg, hq⟩ := hbest r hr
        exact ⟨hg, fun q hq1 hq2 => hfail q (by omega) hq2⟩
      · intro hn
        have hm1 : minQ = 1 := hnone hn
        intro q hq1 hq2
        exact hfail q (by omega) hq2

/-- Soundness at the entry state `(1, 100, None)` of the search. -/
theorem compressLoop_sound_run (enc : Nat → Bytes) (target : Nat) :
    ∀ r, compressLoop enc target 1 100 none = some r → GoodResult enc target r :=
  fun r h =>
    compressLoop_sound_aux enc target 100 1 100 none (by omega) (by omega)
      (by simp) r h

/-- Maximality at the entry state `(1, 100, None)` of the search. -/
theorem compressLoop_maximal_run (enc : Nat → Bytes) (target : Nat)
    (hmono : ∀ a b : Nat, a ≤ b → (enc a).length ≤ (enc b).length) :
    (∀ r, compressLoop enc target 1 100 none = some r →
       GoodResult enc target r ∧
       ∀ q, r.quality < q → q ≤ 100 → target < (enc q).length) ∧
    (compressLoop enc target 1 100 none = none →
       ∀ q, 1 ≤ q → q ≤ 100 → target < (enc q).length) :=
  compressLoop_maximal_aux enc target hmono 100 1 100 none (by omega) le_rfl
    le_rfl (fun _ => rfl) (by simp) (by intro q h1 h2; omega)

/-- C1: for a decodable image and a truthy target, target-size compression
succeeds; whenever the target is reachable (at least the quality-1 encoded
size) the returned size meets the target, and whenever it is unreachable
(under an encoder whose output size is monotone in quality, as for JPEG)
the quality-1 encoding is returned as a successful degraded result with
its over-target size and quality 1. -/
theorem compress_image_target_bound (ops : PILOps) (image_data : Bytes)
    (img : Img) (kb : Nat)
    (hdec : ops.decode image_data = some img) (hkb : 1 ≤ kb) :
    ∃ r, compress_image ops image_data (some kb) none = Except.ok r ∧
      ((ops.saveJPEG (jpegSource ops img) 1).length ≤ kb * 1024 →
        r.size ≤ kb * 1024) ∧
      ((∀ a b : Nat, a ≤ b →
          (ops.saveJPEG (jpegSource ops img) a).length ≤
            (ops.saveJPEG (jpegSource ops img) b).length) →
        kb * 1024 < (ops.saveJPEG (jpegSource ops img) 1).length →
        r.data = ops.saveJPEG (jpegSource ops img) 1 ∧
        r.size = (ops.saveJPEG (jpegSource ops img) 1).length ∧
        r.quality = 1 ∧ kb * 1024 < r.size) := by
  have htr : truthy (some kb) = true := by
    simp [truthy]
    omega
  unfold compress_image
  rw [hdec]
  simp only [htr, if_true, Option.getD_some]
  cases hloop : compressLoop (fun q => ops.saveJPEG (jpegSource ops img) q)
      (kb * 1024) 1 100 none with
  | none =>
    refine ⟨_, rfl, ?_, ?_⟩
    · intro hreach
      exact hreach
    · intro hmono hover
      exact ⟨rfl, rfl, rfl, hover⟩
  | some best =>
    have hgood := compressLoop_sound_run _ _ best hloop
    refine ⟨best, rfl, ?_, ?_⟩
    · intro _
      exact hgood.2.2.1
    · intro hmono hover
      exfalso
      have h1 : (ops.saveJPEG (jpegSource ops img) 1).length ≤
          (ops.saveJPEG (jpegSource ops img) best.quality).length :=
        hmono 1 best.quality hgood.2.2.2.1
      have h2 : best.size = (ops.saveJPEG (jpegSource ops img) best.quality).length :=
        hgood.2.1
      have h3 : best.size ≤ kb * 1024 := hgood.2.2.1
      omega

/-- Witness for C1 at a concrete image and target. -/
theorem compress_image_target_bound_witness :
    ∃ r, compress_image testOps [3, 2] (some 1) none = Except.ok r ∧
      ((testOps.saveJPEG (jpegSource testOps ⟨3, 2, "RGB"⟩) 1).length ≤ 1 * 1024 →
        r.size ≤ 1 * 1024) ∧
      ((∀ a b : Nat, a ≤ b →
          (testOps.saveJPEG (jpegSource testOps ⟨3, 2, "RGB"⟩) a).length ≤
            (testOps.saveJPEG (jpegSource testOps ⟨3, 2, "RGB"⟩) b).length) →
        1 * 1024 < (testOps.saveJPEG (jpegSource testOps ⟨3, 2, "RGB"⟩) 1).length →
        r.data = testOps.saveJPEG (jpegSource testOps ⟨3, 2, "RGB"⟩) 1 ∧
        r.size = (testOps.saveJPEG (jpegSource testOps ⟨3, 2, "RGB"⟩) 1).length ∧
        r.quality = 1 ∧ 1 * 1024 < r.size) :=
  compress_image_target_bound testOps [3, 2] ⟨3, 2, "RGB"⟩ 1 rfl (by omega)

/-- C2: under a quality-monotone encoder, when some quality meets the
target the search returns the maximum quality in `[1, 100]` whose encoding
is at most the target, together with that encoding and its size. -/
theorem compress_search_returns_max_quality (ops : PILOps) (image_data : Bytes)
    (img : Img) (kb : Nat)
    (hdec : ops.decode image_data = some img) (hkb : 1 ≤ kb)
    (hmono : ∀ a b : Nat, a ≤ b →
      (ops.saveJPEG (jpegSource ops img) a).length ≤
        (ops.saveJPEG (jpegSource ops img) b).length)
    (hreach : (ops.saveJPEG (jpegSource ops img) 1).length ≤ kb * 1024) :
    ∃ r, compress_image ops image_data (some kb) none = Except.ok r ∧
      r.data = ops.saveJPEG (jpegSource ops img) r.quality ∧
      r.size = (ops.saveJPEG (jpegSource ops img) r.quality).length ∧
      1 ≤ r.quality ∧ r.quality ≤ 100 ∧ r.size ≤ kb * 1024 ∧
      ∀ q, 1 ≤ q → q ≤ 100 →
        (ops.saveJPEG (jpegSource ops img) q).length ≤ kb * 1024 →
        q ≤ r.quality := by
  have htr : truthy (some kb) = true := by
    simp [truthy]
    omega
  unfold compress_image
  rw [hdec]
  simp only [htr, if_true, Option.getD_some]
  cases hloop : compressLoop (fun q => ops.saveJPEG (jpegSource ops img) q)
      (kb * 1024) 1 100 none with
  | none =>
    exfalso
    have := compressLoop_none_q1 _ (kb * 1024) 100 (by omega) hloop
    omega
  | some best =>
    have hmax := (compressLoop_maximal_run _ (kb * 1024) hmono).1 best hloop
    obtain ⟨⟨hd, hsz, hle, hq1, hq100⟩, hopt⟩ := hmax
    refine ⟨best, rfl, hd, hsz, hq1, hq100, hle, ?_⟩
    intro q h1 h2 h3
    by_contra hgt
    have := hopt q (by omega) h2
    omega

/-- Witness for C2 at a concrete image and target. -/
theorem compress_search_returns_max_quality_witness :
    ∃ r, compress_image testOps [3, 2] (some 1) none = Except.ok r ∧
      r.data = testOps.saveJPEG (jpegSource testOps ⟨3, 2, "RGB"⟩) r.quality ∧
      r.size = (testOps.saveJPEG (jpegSource testOps ⟨3, 2, "RGB"⟩) r.quality).length ∧
      1 ≤ r.quality ∧ r.quality ≤ 100 ∧ r.size ≤ 1 * 1024 ∧
      ∀ q, 1 ≤ q → q ≤ 100 →
        (testOps.saveJPEG (jpegSource testOps ⟨3, 2, "RGB"⟩) q).length ≤ 1 * 1024 →
        q ≤ r.quality :=
  compress_search_returns_max_quality testOps [3, 2] ⟨3, 2, "RGB"⟩ 1 rfl
    (by omega)
    (by
      intro a b h
      simp [testOps]
      omega)
    (by
      show (List.replicate (1 + 2) 1).length ≤ 1 * 1024
      simp)

/-- Because `target_size_kb = 0` is falsy, `compress_image` falls through to the
default quality-85 branch, exactly as when called with `quality = 85`. -/
theorem compress_image_zero_kb (ops : PILOps) (pd : Bytes) :
    compress_image ops pd (some 0) none = compress_image ops pd none (some 85) := by
  unfold compress_image
  cases ops.decode pd with
  | none => rfl
  | some img => simp [truthy]

/-- C10: in the `process_pack` compression stage the target is integer-divided
by 1024 before the search, so only `(compress_target // 1024) * 1024` matters
(the target is effectively rounded down to a whole KiB), and a target below
1024 bytes yields the quotient 0, which is falsy and disables the target
search in favour of the default quality-85 compression. -/
theorem pack_compress_target_kib_granularity (ops : PILOps) (o : OutputSpec)
    (c : Nat) (pd : Bytes) (hc : o.compress = true)
    (ht : o.compress_target = some c) :
    (applyCompress ops o pd =
      applyCompress ops { o with compress_target := some (c / 1024 * 1024) } pd) ∧
    (∀ image_data now rest,
      process_pack ops image_data now (o :: rest) =
      process_pack ops image_data now
        ({ o with compress_target := some (c / 1024 * 1024) } :: rest)) ∧
    (c < 1024 →
      applyCompress ops o pd =
        (compress_image ops pd none (some 85)).map (fun r => r.data)) := by
  obtain ⟨nm, w, h, mth, cp, ct⟩ := o
  simp only at hc ht
  subst hc
  subst ht
  have key : ∀ pd' : Bytes,
      applyCompress ops ⟨nm, w, h, mth, true, some c⟩ pd' =
      applyCompress ops ⟨nm, w, h, mth, true, some (c / 1024 * 1024)⟩ pd' := by
    intro pd'
    unfold applyCompress
    by_cases h0 : c < 1024
    · have hq : c / 1024 = 0 := Nat.div_eq_of_lt h0
      rcases Nat.eq_zero_or_pos c with hc0 | hc1
      · subst hc0
        rfl
      · have ht1 : truthy (some c) = true := by
          simp [truthy]
          omega
        have ht2 : truthy (some (0 * 1024)) = false := by
          simp [truthy]
        simp only [hq, ht1, ht2, if_true, Bool.false_eq_true, if_false,
          Option.getD_some]
        rw [compress_image_zero_kb]
    · have h1024 : 1024 ≤ c := by omega
      have hq1 : 1 ≤ c / 1024 := by
        exact Nat.one_le_div_iff (by omega) |>.mpr h1024
      have ht1 : truthy (some c) = true := by
        simp [truthy]
        omega
      have ht2 : truthy (some (c / 1024 * 1024)) = true := by
        simp [truthy]
        intro hzero
        omega
      simp only [ht1, ht2, if_true, Option.getD_some]
      rw [Nat.mul_div_cancel _ (by omega : 0 < 1024)]
  refine ⟨key pd, ?_, ?_⟩
  · intro image_data now rest
    rw [process_pack, process_pack]
    have hfin : ∀ pd',
        finishOutput ops now ⟨nm, w, h, mth, true, some c⟩ pd' =
        finishOutput ops now ⟨nm, w, h, mth, true, some (c / 1024 * 1024)⟩ pd' := by
      intro pd'
      unfold finishOutput
      rw [key pd']
    simp only [hfin]
  · intro h0
    unfold applyCompress
    have hq : c / 1024 = 0 := Nat.div_eq_of_lt h0
    rcases Nat.eq_zero_or_pos c with hc0 | hc1
    · subst hc0
      rfl
    · have ht1 : truthy (some c) = true := by
        simp [truthy]
        omega
      simp only [ht1, if_true, Option.getD_some, hq, compress_image_zero_kb]

/-- Witness for C10 at a concrete spec with a sub-KiB target. -/
theorem pack_compress_target_kib_granularity_witness :
    (applyCompress testOps ⟨"thumb", some 4, some 4, "blur", true, some 500⟩ [3, 2] =
      applyCompress testOps
        ⟨"thumb", some 4, some 4, "blur", true, some (500 / 1024 * 1024)⟩ [3, 2]) ∧
    (∀ image_data now rest,
      process_pack testOps image_data now
          (⟨"thumb", some 4, some 4, "blur", true, some 500⟩ :: rest) =
      process_pack testOps image_data now
          (⟨"thumb", some 4, some 4, "blur", true, some (500 / 1024 * 1024)⟩ :: rest)) ∧
    (500 < 1024 →
      applyCompress testOps ⟨"thumb", some 4, some 4, "blur", true, some 500⟩ [3, 2] =
        (compress_image testOps [3, 2] none (some 85)).map (fun r => r.data)) :=
  pack_compress_target_kib_granularity testOps
    ⟨"thumb", some 4, some 4, "blur", true, some 500⟩ 500 [3, 2] rfl rfl

/-! ### The blur-letterbox compositor -/

/-- On a decodable image with positive dimensions and a positive target
height, `add_blur_borders` succeeds and returns the PNG encoding of a
canvas of exactly the target dimensions. -/
theorem add_blur_borders_ok (ops : PILOps) (image_data : Bytes) (img : Img)
    (tw th blur : Nat) (hdec : ops.decode image_data = some img)
    (hw : img.width ≠ 0) (hh : img.height ≠ 0) (hth : th ≠ 0) :
    ∃ c : Img, add_blur_borders ops image_data tw th blur =
      Except.ok (ops.savePNG c) ∧ c.width = tw ∧ c.height = th := by
  unfold add_blur_borders
  rw [hdec]
  dsimp only
  rw [if_neg (by
    intro hcon
    rcases hcon with hcon | hcon
    · exact hh hcon
    · exact hth hcon)]
  rw [if_neg hw]
  refine ⟨_, rfl, ?_, ?_⟩
  · rw [ops.paste_width, ops.paste_width, ops.new_width]
  · rw [ops.paste_height, ops.paste_height, ops.new_height]

/-- C3: for every decodable input image and target dimensions in
`[1, 4000]`, the blur-letterbox composite returns bytes that decode to an
image of exactly the target dimensions, whatever the input aspect ratio. -/
theorem blur_canvas_exact_size (ops : PILOps) (image_data : Bytes) (img : Img)
    (tw th blur : Nat) (hdec : ops.decode image_data = some img)
    (hw : 1 ≤ img.width) (hh : 1 ≤ img.height)
    (htw1 : 1 ≤ tw) (htw2 : tw ≤ 4000) (hth1 : 1 ≤ th) (hth2 : th ≤ 4000) :
    ∃ out, add_blur_borders ops image_data tw th blur = Except.ok out ∧
      ∃ j, ops.decode out = some j ∧ j.width = tw ∧ j.height = th := by
  obtain ⟨c, hc, hcw, hch⟩ :=
    add_blur_borders_ok ops image_data img tw th blur hdec (by omega) (by omega)
      (by omega)
  obtain ⟨j, hj, hjw, hjh⟩ := ops.decode_savePNG c
  exact ⟨_, hc, j, hj, by omega, by omega⟩

/-- Witness for C3 on a concrete wide image and a narrow canvas. -/
theorem blur_canvas_exact_size_witness :
    ∃ out, add_blur_borders testOps [3, 2] 5 4 30 = Except.ok out ∧
      ∃ j, testOps.decode out = some j ∧ j.width = 5 ∧ j.height = 4 :=
  blur_canvas_exact_size testOps [3, 2] ⟨3, 2, "RGB"⟩ 5 4 30 rfl (by decide)
    (by decide) (by decide) (by decide) (by decide) (by decide)

/-! ### The resizer -/

/-- C7 (amended): percentage resize truncates, returning
`new_w = ⌊sw·p/100⌋` and `new_h = ⌊sh·p/100⌋` — Python `int()` of the
scaled value — not the nearest-integer rounding the claim states. -/
theorem resize_percentage_floor (ops : PILOps) (image_data : Bytes)
    (img : Img) (p : Nat) (hdec : ops.decode image_data = some img)
    (hp : 1 ≤ p) :
    resize_image ops image_data none none (some p) none none =
      Except.ok
        (ops.savePNG (ops.resize img ⌊(img.width : ℚ) * ((p : ℚ) / 100)⌋₊
            ⌊(img.height : ℚ) * ((p : ℚ) / 100)⌋₊),
          ⌊(img.width : ℚ) * ((p : ℚ) / 100)⌋₊,
          ⌊(img.height : ℚ) * ((p : ℚ) / 100)⌋₊) := by
  have ht : truthy (some p) = true := by
    simp [truthy]
    omega
  unfold resize_image
  rw [hdec]
  dsimp only
  rw [if_pos ht]
  rfl

/-- Witness for the amended C7 on the spec's own example 1000×800 at 50%. -/
theorem resize_percentage_floor_witness :
    resize_image testOps [1000, 800] none none (some 50) none none =
      Except.ok
        (testOps.savePNG (testOps.resize ⟨1000, 800, "RGB"⟩
            ⌊((⟨1000, 800, "RGB"⟩ : Img).width : ℚ) * ((50 : ℚ) / 100)⌋₊
            ⌊((⟨1000, 800, "RGB"⟩ : Img).height : ℚ) * ((50 : ℚ) / 100)⌋₊),
          ⌊((⟨1000, 800, "RGB"⟩ : Img).width : ℚ) * ((50 : ℚ) / 100)⌋₊,
          ⌊((⟨1000, 800, "RGB"⟩ : Img).height : ℚ) * ((50 : ℚ) / 100)⌋₊) :=
  resize_percentage_floor testOps [1000, 800] ⟨1000, 800, "RGB"⟩ 50 rfl
    (by omega)

/-- Counterexample to C7 as stated: on a 3×2 image at 50%, the code
returns width 1 (truncation of 1.5) while `round(3·50/100) = 2`. -/
theorem resize_percentage_not_round_cex :
    resize_image testOps [3, 2] none none (some 50) none none =
      Except.ok ([1, 1], 1, 1) ∧
    round ((3 : ℚ) * 50 / 100) = (2 : ℤ) := by
  constructor
  · unfold resize_image
    rw [show testOps.decode [3, 2] = some ⟨3, 2, "RGB"⟩ from rfl]
    dsimp only
    rw [if_pos (show truthy (some 50) = true from rfl)]
    have h1 : (⌊((⟨3, 2, "RGB"⟩ : Img).width : ℚ) *
        (((some 50 : Option Nat).getD 0 : ℚ) / 100)⌋₊ : ℕ) = 1 := by
      show (⌊(3 : ℚ) * ((50 : ℚ) / 100)⌋₊ : ℕ) = 1
      norm_num [Nat.floor_eq_iff]
    have h2 : (⌊((⟨3, 2, "RGB"⟩ : Img).height : ℚ) *
        (((some 50 : Option Nat).getD 0 : ℚ) / 100)⌋₊ : ℕ) = 1 := by
      show (⌊(2 : ℚ) * ((50 : ℚ) / 100)⌋₊ : ℕ) = 1
      norm_num [Nat.floor_eq_iff]
    simp only [h1, h2]
    rfl
  · norm_num [round_eq]

/-- For `0 ≤ s ≤ 1`, scaling a natural dimension by `s` and truncating
never exceeds the dimension. -/
theorem floor_scale_le (n : Nat) (s : ℚ) (h0 : 0 ≤ s) (h1 : s ≤ 1) :
    ⌊(n : ℚ) * s⌋₊ ≤ n := by
  have hle : (n : ℚ) * s ≤ (n : ℚ) :=
    mul_le_of_le_one_right (by positivity) h1
  calc ⌊(n : ℚ) * s⌋₊ ≤ ⌊(n : ℚ)⌋₊ := Nat.floor_le_floor hle
    _ = n := Nat.floor_natCast n

/-- The shared tail of the bounding-box branch: whatever the (non-negative)
scale, the emitted dimensions never exceed the originals. -/
theorem bb_scale_bound (ops : PILOps) (img : Img) (s : ℚ) (hs0 : 0 ≤ s)
    (b : Bytes) (nw nh : Nat)
    (hcase : ((if (1 : ℚ) ≤ s then Except.ok (img.width, img.height)
        else Except.ok (⌊(img.width : ℚ) * s⌋₊, ⌊(img.height : ℚ) * s⌋₊) :
        Except String (Nat × Nat)).bind
        (fun wh => Except.ok (ops.savePNG (ops.resize img wh.1 wh.2),
          wh.1, wh.2))) = Except.ok (b, nw, nh)) :
    nw ≤ img.width ∧ nh ≤ img.height := by
  by_cases hs1 : (1 : ℚ) ≤ s
  · rw [if_pos hs1] at hcase
    dsimp only [Except.bind] at hcase
    injection hcase with hc
    have h2 : img.width = nw :=
      congrArg (fun t : Bytes × Nat × Nat => t.2.1) hc
    have h3 : img.height = nh :=
      congrArg (fun t : Bytes × Nat × Nat => t.2.2) hc
    omega
  · rw [if_neg hs1] at hcase
    dsimp only [Except.bind] at hcase
    injection hcase with hc
    have h2 : ⌊(img.width : ℚ) * s⌋₊ = nw :=
      congrArg (fun t : Bytes × Nat × Nat => t.2.1) hc
    have h3 : ⌊(img.height : ℚ) * s⌋₊ = nh :=
      congrArg (fun t : Bytes × Nat × Nat => t.2.2) hc
    have hs2 : s ≤ 1 := (lt_of_not_le hs1).le
    have hb1 := floor_scale_le img.width s hs0 hs2
    have hb2 := floor_scale_le img.height s hs0 hs2
    omega

/-- C8: a decodable image already within the bounding box (scale factor
`min(max_w/sw, max_h/sh) ≥ 1`) is returned at exactly its own dimensions,
and bounding-box resize never upscales under any parameters. -/
theorem bounding_box_no_upscale (ops : PILOps) (image_data : Bytes)
    (img : Img) (mw mh : Nat) (hdec : ops.decode image_data = some img)
    (hw : 1 ≤ img.width) (hh : 1 ≤ img.height)
    (hmw : 1 ≤ mw) (hmh : 1 ≤ mh) :
    ((1 : ℚ) ≤ min ((mw : ℚ) / (img.width : ℚ)) ((mh : ℚ) / (img.height : ℚ)) →
      resize_image ops image_data none none none (some mw) (some mh) =
        Except.ok (ops.savePNG (ops.resize img img.width img.height),
          img.width, img.height)) ∧
    (∀ mwo mho : Option Nat, (truthy mwo || truthy mho) = true →
      ∀ b nw nh, resize_image ops image_data none none none mwo mho =
          Except.ok (b, nw, nh) → nw ≤ img.width ∧ nh ≤ img.height) := by
  constructor
  · intro hscale
    have htw : truthy (some mw) = true := by
      simp [truthy]
      omega
    have hth : truthy (some mh) = true := by
      simp [truthy]
      omega
    unfold resize_image
    rw [hdec]
    dsimp only
    rw [if_neg (by simp [truthy]), if_neg (by simp [truthy]),
      if_neg (by simp [truthy]), if_neg (by simp [truthy])]
    rw [if_pos (by simp [htw])]
    simp only [Option.getD_some]
    rw [if_pos (by simp [htw, hth])]
    rw [if_neg (by omega)]
    dsimp only [Except.bind]
    rw [if_pos hscale]
  · intro mwo mho hor b nw nh hres
    unfold resize_image at hres
    rw [hdec] at hres
    dsimp only at hres
    rw [if_neg (by simp [truthy]), if_neg (by simp [truthy]),
      if_neg (by simp [truthy]), if_neg (by simp [truthy])] at hres
    rw [if_pos hor] at hres
    by_cases h1 : truthy mwo = true
    · by_cases h2 : truthy mho = true
      · rw [if_pos (by simp [h1, h2])] at hres
        rw [if_neg (by omega)] at hres
        dsimp only [Except.bind] at hres
        refine bb_scale_bound ops img _ ?_ b nw nh hres
        have d1 : (0 : ℚ) ≤ (mwo.getD 0 : ℚ) / (img.width : ℚ) := by
          positivity
        have d2 : (0 : ℚ) ≤ (mho.getD 0 : ℚ) / (img.height : ℚ) := by
          positivity
        exact le_min d1 d2
      · rw [if_neg (by simp [h2])] at hres
        rw [if_pos h1] at hres
        rw [if_neg (by omega)] at hres
        dsimp only [Except.bind] at hres
        refine bb_scale_bound ops img _ ?_ b nw nh hres
        positivity
    · by_cases h2 : truthy mho = true
      · rw [if_neg (by simp [h1])] at hres
        rw [if_neg h1] at hres
        rw [if_neg (by omega)] at hres
        dsimp only [Except.bind] at hres
        refine bb_scale_bound ops img _ ?_ b nw nh hres
        positivity
      · simp only [Bool.not_eq_true] at h1 h2
        rw [h1, h2] at hor
        simp at hor

/-- Witness for C8 on a concrete 3×2 image inside a 5×6 box. -/
theorem bounding_box_no_upscale_witness :
    ((1 : ℚ) ≤ min ((5 : ℚ) / ((⟨3, 2, "RGB"⟩ : Img).width : ℚ))
        ((6 : ℚ) / ((⟨3, 2, "RGB"⟩ : Img).height : ℚ)) →
      resize_image testOps [3, 2] none none none (some 5) (some 6) =
        Except.ok (testOps.savePNG (testOps.resize ⟨3, 2, "RGB"⟩
            (⟨3, 2, "RGB"⟩ : Img).width (⟨3, 2, "RGB"⟩ : Img).height),
          (⟨3, 2, "RGB"⟩ : Img).width, (⟨3, 2, "RGB"⟩ : Img).height)) ∧
    (∀ mwo mho : Option Nat, (truthy mwo || truthy mho) = true →
      ∀ b nw nh, resize_image testOps [3, 2] none none none mwo mho =
          Except.ok (b, nw, nh) →
        nw ≤ (⟨3, 2, "RGB"⟩ : Img).width ∧ nh ≤ (⟨3, 2, "RGB"⟩ : Img).height) :=
  bounding_box_no_upscale testOps [3, 2] ⟨3, 2, "RGB"⟩ 5 6 rfl (by decide)
    (by decide) (by decide) (by decide)

/-! ### The validators -/

/-- C9 (amended): a zero-byte buffer passes the size check for every
`max_size` — including `max_size = 0`, since the check is
`len(file_data) > max_size` and `0 > 0` is false — and, with the extension
check bypassed, validation fails at decode with `CorruptImage`;
`SizeLimitExceeded` is never returned for an empty buffer. -/
theorem empty_buffer_corrupt (ops : PILOps) (filename : String)
    (max_size : Nat) (hdec : ops.decode [] = none) :
    validate_image_file ops [] filename max_size none =
      Except.error ImgVErr.CorruptImage := by
  unfold validate_image_file extensionOk
  rw [if_neg (by simp)]
  rw [if_neg (by simp)]
  rw [hdec]

/-- Witness for the amended C9 at `max_size = 0`. -/
theorem empty_buffer_corrupt_witness :
    validate_image_file testOps [] "a.png" 0 none =
      Except.error ImgVErr.CorruptImage :=
  empty_buffer_corrupt testOps "a.png" 0 rfl

/-- Counterexample to C9 as stated: at `max_size = 0` a zero-byte buffer is
still rejected as `CorruptImage`, not `SizeLimitExceeded` (the size check
`0 > 0` passes). -/
theorem empty_buffer_zero_max_cex :
    validate_image_file testOps [] "a.png" 0 none =
      Except.error ImgVErr.CorruptImage ∧
    validate_image_file testOps [] "a.png" 0 none ≠
      Except.error ImgVErr.SizeLimitExceeded := by
  constructor
  · rfl
  · intro h
    have h1 : validate_image_file testOps [] "a.png" 0 none =
        Except.error ImgVErr.CorruptImage := rfl
    rw [h1] at h
    injection h with h2
    exact absurd h2 (by decide)

/-- C4 (amended): `validate_file_upload` in security.py does perform the
magic-byte check in addition to, and independently of, the extension
check: any buffer that passes the size and extension checks but does not
start with a known JPEG/PNG/GIF/WEBP signature is rejected there. -/
theorem security_magic_check_independent (file_data : Bytes)
    (filename : String) (max_size : Nat)
    (allowed_extensions : Option (List String))
    (hsize : file_data.length ≤ max_size)
    (hext : extensionOk (secExt filename) allowed_extensions = true)
    (hmagic : hasMagic file_data = false) :
    validate_file_upload file_data filename max_size allowed_extensions =
      Except.error SecVErr.InvalidFileFormat := by
  unfold validate_file_upload
  rw [if_neg (by omega)]
  rw [hext]
  simp only [Bool.not_true, Bool.false_eq_true, if_false]
  rw [hmagic]
  simp

/-- Witness for the amended C4: a non-signature buffer with a passing
extension is rejected by the security validator. -/
theorem security_magic_check_independent_witness :
    validate_file_upload [0, 1, 2] "x.png" 100 (some ["png"]) =
      Except.error SecVErr.InvalidFileFormat :=
  security_magic_check_independent [0, 1, 2] "x.png" 100 (some ["png"])
    (by decide) (by decide) (by decide)

/-- Counterexample to C4 as stated: the validation entry point the upload
route calls, `validate_image_file`, performs no signature check at all — a
BMP-style buffer (leading bytes `42 4D`, no known signature) with a `.png`
name against a `png` allow-list passes the size and extension checks and
is accepted outright once it decodes, instead of being rejected with an
unrecognized-format error. -/
theorem upload_validator_no_magic_check_cex :
    validate_image_file testOps [66, 77, 30, 30, 0, 0] "photo.png" 10485760
        (some ["png"]) = Except.ok true ∧
    hasMagic [66, 77, 30, 30, 0, 0] = false ∧
    ([66, 77, 30, 30, 0, 0] : Bytes).length ≤ 10485760 ∧
    extensionOk (splitextExt "photo.png") (some ["png"]) = true := by
  exact ⟨rfl, by decide, by decide, by decide⟩

/-! ### The pack runner -/

theorem except_bind_ok {ε α β : Type} (a : α) (f : α → Except ε β) :
    (Except.ok a : Except ε α).bind f = f a := rfl

theorem except_map_ok {ε α β : Type} (a : α) (f : α → β) :
    (Except.ok a : Except ε α).map f = Except.ok (f a) := rfl

/-- Exact-mode resize (`width` and `height` both truthy) succeeds with the
requested dimensions. -/
theorem resize_exact_ok (ops : PILOps) (image_data : Bytes) (img : Img)
    (w h : Nat) (hdec : ops.decode image_data = some img)
    (hw : 1 ≤ w) (hh : 1 ≤ h) :
    resize_image ops image_data (some w) (some h) none none none =
      Except.ok (ops.savePNG (ops.resize img w h), w, h) := by
  have h2 : truthy (some w) = true := by
    simp [truthy]
    omega
  have h3 : truthy (some h) = true := by
    simp [truthy]
    omega
  unfold resize_image
  rw [hdec]
  dsimp only
  rw [if_neg (by simp [truthy])]
  rw [if_pos (by simp [h2, h3])]
  rfl

/-- Function `compress_image` succeeds on every decodable buffer, whatever the
target/quality arguments. -/
theorem compress_image_ok (ops : PILOps) (pd : Bytes) (img : Img)
    (tkb q : Option Nat) (hdec : ops.decode pd = some img) :
    ∃ r, compress_image ops pd tkb q = Except.ok r := by
  unfold compress_image
  rw [hdec]
  dsimp only
  cases htk : truthy tkb with
  | true =>
    rw [if_pos rfl]
    cases compressLoop (fun q' => ops.saveJPEG (jpegSource ops img) q')
        (tkb.getD 0 * 1024) 1 100 none with
    | none => exact ⟨_, rfl⟩
    | some best => exact ⟨_, rfl⟩
  | false =>
    rw [if_neg (by simp)]
    cases hq : truthy q with
    | true =>
      rw [if_pos rfl]
      exact ⟨_, rfl⟩
    | false =>
      rw [if_neg (by simp)]
      exact ⟨_, rfl⟩

/-- The compression stage succeeds on every decodable buffer. -/
theorem applyCompress_ok (ops : PILOps) (o : OutputSpec) (pd : Bytes)
    (img : Img) (hdec : ops.decode pd = some img) :
    ∃ pd2, applyCompress ops o pd = Except.ok pd2 := by
  unfold applyCompress
  cases o.compress with
  | false => exact ⟨pd, rfl⟩
  | true =>
    rw [if_pos rfl]
    cases htk : truthy o.compress_target with
    | true =>
      rw [if_pos rfl]
      obtain ⟨r, hr⟩ := compress_image_ok ops pd img
        (some (o.compress_target.getD 0 / 1024)) none hdec
      rw [hr]
      exact ⟨_, rfl⟩
    | false =>
      rw [if_neg (by simp)]
      obtain ⟨r, hr⟩ := compress_image_ok ops pd img none (some 85) hdec
      rw [hr]
      exact ⟨_, rfl⟩

/-- One full per-spec tail succeeds on a decodable buffer, and the result
carries the spec's name, width and height. -/
theorem finishOutput_ok (ops : PILOps) (now : String) (o : OutputSpec)
    (pd : Bytes) (img : Img) (hdec : ops.decode pd = some img) :
    ∃ r, finishOutput ops now o pd = Except.ok r ∧
      r.name = o.name ∧ r.width = o.width ∧ r.height = o.height := by
  obtain ⟨pd2, h⟩ := applyCompress_ok ops o pd img hdec
  unfold finishOutput
  rw [h, except_map_ok]
  exact ⟨_, rfl, rfl, rfl, rfl⟩

/-- C5: on a decodable image, a pack whose specs all carry truthy width
and height yields exactly one result per recognized spec (`blur` or
`resize`), in input order and with the spec's name and declared
dimensions; specs with an unrecognized method are skipped without failing
the batch. -/
theorem pack_one_result_per_recognized_spec (ops : PILOps)
    (image_data : Bytes) (img : Img) (now : String)
    (outputs : List OutputSpec)
    (hdec : ops.decode image_data = some img)
    (hw : 1 ≤ img.width) (hh : 1 ≤ img.height)
    (hspecs : ∀ o ∈ outputs, 1 ≤ o.width.getD 0 ∧ 1 ≤ o.height.getD 0) :
    ∃ rs, process_pack ops image_data now outputs = Except.ok rs ∧
      rs.map (fun r => (r.name, r.width, r.height)) =
        (outputs.filter
            (fun o => o.method == "blur" || o.method == "resize")).map
          (fun o => (o.name, o.width, o.height)) := by
  induction outputs with
  | nil => exact ⟨[], rfl, rfl⟩
  | cons o rest ih =>
    obtain ⟨how, hoh⟩ := hspecs o (by simp)
    obtain ⟨rs, hrs, hmap⟩ := ih (fun o' ho' => hspecs o' (by simp [ho']))
    obtain ⟨w, hwo⟩ : ∃ w, o.width = some w := by
      cases hx : o.width with
      | none =>
        rw [hx] at how
        simp at how
      | some w => exact ⟨w, rfl⟩
    obtain ⟨h, hho⟩ : ∃ h, o.height = some h := by
      cases hx : o.height with
      | none =>
        rw [hx] at hoh
        simp at hoh
      | some h => exact ⟨h, rfl⟩
    rw [hwo] at how
    rw [hho] at hoh
    simp only [Option.getD_some] at how hoh
    rw [process_pack]
    by_cases hb : o.method = "blur"
    · rw [if_pos hb, hwo, hho]
      obtain ⟨c, hc, hcw, hch⟩ := add_blur_borders_ok ops image_data img w h
        30 hdec (by omega) (by omega) (by omega)
      dsimp only
      rw [hc, except_bind_ok]
      obtain ⟨j, hj, hjw, hjh⟩ := ops.decode_savePNG c
      obtain ⟨r, hr, hrn, hrw, hrh⟩ :=
        finishOutput_ok ops now o (ops.savePNG c) j hj
      rw [hr, except_bind_ok, hrs, except_map_ok]
      refine ⟨r :: rs, rfl, ?_⟩
      simp [List.filter_cons, hb, hmap, hrn, hrw, hrh]
    · by_cases hr2 : o.method = "resize"
      · rw [if_neg hb, if_pos hr2, hwo, hho]
        rw [resize_exact_ok ops image_data img w h hdec how hoh]
        rw [except_bind_ok]
        dsimp only
        obtain ⟨j, hj, hjw, hjh⟩ := ops.decode_savePNG (ops.resize img w h)
        obtain ⟨r, hr, hrn, hrw, hrh⟩ :=
          finishOutput_ok ops now o (ops.savePNG (ops.resize img w h)) j hj
        rw [hr, except_bind_ok, hrs, except_map_ok]
        refine ⟨r :: rs, rfl, ?_⟩
        simp [List.filter_cons, hb, hr2, hmap, hrn, hrw, hrh]
      · rw [if_neg hb, if_neg hr2]
        refine ⟨rs, hrs, ?_⟩
        rw [hmap]
        congr 1
        simp [List.filter_cons, hb, hr2]

/-- Witness for C5: a three-spec pack (a blur spec, a compressed resize
spec, and a spec with an unrecognized method) yields exactly the two
recognized results, in order. -/
theorem pack_one_result_per_recognized_spec_witness :
    ∃ rs, process_pack testOps [3, 2] "20260101_000000"
        [⟨"square", some 4, some 4, "blur", false, none⟩,
         ⟨"small", some 2, some 3, "resize", true, some 2048⟩,
         ⟨"weird", some 2, some 2, "rotate", false, none⟩] = Except.ok rs ∧
      rs.map (fun r => (r.name, r.width, r.height)) =
        ([⟨"square", some 4, some 4, "blur", false, none⟩,
          ⟨"small", some 2, some 3, "resize", true, some 2048⟩,
          ⟨"weird", some 2, some 2, "rotate", false, none⟩].filter
            (fun o : OutputSpec => o.method == "blur" || o.method == "resize")).map
          (fun o => (o.name, o.width, o.height)) :=
  pack_one_result_per_recognized_spec testOps [3, 2] ⟨3, 2, "RGB"⟩
    "20260101_000000" _ rfl (by decide) (by decide) (by decide)

/-- Prepending timestamp-equivalent results preserves equality of the
timestamp-independent projections of a pack run. -/
theorem map_cons_core (r1 r2 : PackResult) (hr : resultCore r1 = resultCore r2)
    (e1 e2 : Except String (List PackResult))
    (he : e1.map (List.map resultCore) = e2.map (List.map resultCore)) :
    (e1.map (fun rs => r1 :: rs)).map (List.map resultCore) =
    (e2.map (fun rs => r2 :: rs)).map (List.map resultCore) := by
  cases e1 with
  | error a =>
    cases e2 with
    | error b =>
      dsimp only [Except.map] at he ⊢
      exact he
    | ok l2 =>
      dsimp only [Except.map] at he
      exact absurd he (by simp)
  | ok l1 =>
    cases e2 with
    | error b =>
      dsimp only [Except.map] at he
      exact absurd he (by simp)
    | ok l2 =>
      dsimp only [Except.map] at he ⊢
      injection he with he2
      simp only [List.map_cons, hr, he2]

/-- C6 (amended): every pipeline entry point is a pure function of its
explicit inputs, where for `run_pack` the inputs include the invocation
timestamp; the timestamp influences only the `filename` field of each
result, so two runs on identical buffers and parameters agree on every
other field (data, declared width/height, size, name) in every position,
and on the entire outcome when the timestamps coincide. -/
theorem pack_timestamp_only_in_filename (ops : PILOps) (image_data : Bytes)
    (t1 t2 : String) (outputs : List OutputSpec) :
    (process_pack ops image_data t1 outputs).map (List.map resultCore) =
    (process_pack ops image_data t2 outputs).map (List.map resultCore) := by
  induction outputs with
  | nil => rfl
  | cons o rest ih =>
    rw [process_pack, process_pack]
    by_cases hb : o.method = "blur"
    · rw [if_pos hb, if_pos hb]
      cases hab : (match o.width, o.height with
        | some w, some h => add_blur_borders ops image_data w h 30
        | _, _ =>
          Except.error "Error processing pack: unsupported operand type"
        : Except String Bytes) with
      | error e => rfl
      | ok pd =>
        cases hac : applyCompress ops o pd with
        | error e =>
          dsimp only [except_bind_ok]
          unfold finishOutput
          rw [hac]
          rfl
        | ok pd2 =>
          dsimp only [except_bind_ok]
          unfold finishOutput
          rw [hac]
          dsimp only [Except.map, Except.bind]
          exact map_cons_core
            ⟨pd2, o.name ++ "_" ++ t1 ++ ".png", o.width, o.height,
              pd2.length, o.name⟩
            ⟨pd2, o.name ++ "_" ++ t2 ++ ".png", o.width, o.height,
              pd2.length, o.name⟩
            rfl _ _ ih
    · rw [if_neg hb, if_neg hb]
      by_cases hr2 : o.method = "resize"
      · rw [if_pos hr2, if_pos hr2]
        cases hrz : resize_image ops image_data o.width o.height none none none with
        | error e => rfl
        | ok t =>
          cases hac : applyCompress ops o t.1 with
          | error e =>
            dsimp only [except_bind_ok]
            unfold finishOutput
            rw [hac]
            rfl
          | ok pd2 =>
            dsimp only [except_bind_ok]
            unfold finishOutput
            rw [hac]
            dsimp only [Except.map, Except.bind]
            exact map_cons_core
              ⟨pd2, o.name ++ "_" ++ t1 ++ ".png", o.width, o.height,
                pd2.length, o.name⟩
              ⟨pd2, o.name ++ "_" ++ t2 ++ ".png", o.width, o.height,
                pd2.length, o.name⟩
              rfl _ _ ih
      · rw [if_neg hr2, if_neg hr2]
        exact ih

/-- Counterexample to C6 as stated: `process_pack` threads
`datetime.now()` into each filename, so two invocations on identical
buffers and parameters at different times return different results. -/
theorem pack_filename_depends_on_clock_cex :
    process_pack testOps [3, 2] "20260101_000000"
        [⟨"a", some 2, some 2, "resize", false, none⟩] ≠
    process_pack testOps [3, 2] "20260102_000000"
        [⟨"a", some 2, some 2, "resize", false, none⟩] := by
  intro h
  have h1 : process_pack testOps [3, 2] "20260101_000000"
      [⟨"a", some 2, some 2, "resize", false, none⟩] =
      Except.ok [⟨[2, 2], "a_20260101_000000.png", some 2, some 2, 2, "a"⟩] := rfl
  have h2 : process_pack testOps [3, 2] "20260102_000000"
      [⟨"a", some 2, some 2, "resize", false, none⟩] =
      Except.ok [⟨[2, 2], "a_20260102_000000.png", some 2, some 2, 2, "a"⟩] := rfl
  rw [h1, h2] at h
  injection h with h3
  injection h3 with h4
  have h5 : ("a_20260101_000000.png" : String) = "a_20260102_000000.png" :=
    congrArg PackResult.filename h4
  exact absurd h5 (by decide)

end ImageScaleHub
